import Mathlib

/-!
Shallow embedding of the StaticString / StackString fixed-capacity string
library (`include/StaticString.h`, `include/StackString.h`).

Modelling conventions:
* A C `char` value is modelled as a `Nat` (only equality tests, the whitespace
  test and the ASCII letter ranges matter to the verified properties).
* The struct `StaticString { char static_string[SSTR_MAX_LENGTH + 1];
  uint32_t string_length; }` is modelled as a record holding the buffer as a
  total function `Nat → Nat` together with the length field.  The capacity
  macro `SSTR_MAX_LENGTH` (overridable at compile time; default 255, main.cpp
  sets 128) is an explicit parameter `CAP` of every operation that uses it.
  `StackString` has the identical layout with the capacity fixed at
  `SS_MAX_LENGTH = 255` and a `uint8_t` length field; the `ss_*` operations
  below reuse the same record type.
* C strings (`const char *`) are total byte sequences `Nat → Nat` when they
  cannot be NULL, and `Option (Nat → Nat)` where a NULL pointer is possible
  (`none` = NULL).
* Loops are translated one-to-one into terminating recursive functions that
  thread the buffer through each iteration, so every read inside a loop sees
  the writes of earlier iterations exactly as the C code does.
-/

/-- The macro `IS_WHITESPACE(c)` shared by both headers:
space, tab, newline, carriage return. -/
def IS_WHITESPACE (c : Nat) : Bool :=
  c == 32 || c == 9 || c == 10 || c == 13

/-- `SS_MAX_LENGTH = (SS_MAX_DATA_TYPE)(-1) = 255`, the fixed StackString
capacity (`SS_MAX_DATA_TYPE` is `uint8_t`). -/
def SS_MAX_LENGTH : Nat := 255

/-- `2^32`, the modulus of `uint32_t` arithmetic. -/
def UINT32_MOD : Nat := 4294967296

/-- `StaticString` (and, with `CAP = 255`, `StackString`): a byte buffer of
`CAP + 1` cells at indices `0..CAP`, plus the unsigned length field. -/
structure StaticString where
  static_string : Nat → Nat
  string_length : Nat

/-- One array store `buf[i] = v`. -/
def store (f : Nat → Nat) (i v : Nat) : Nat → Nat :=
  fun k => if k = i then v else f k

/-- `sstr_init` / `ss_init`: `string_length = 0; static_string[0] = '\0'`,
acting on an arbitrary pre-existing (possibly uninitialized) struct. -/
def sstr_init (s : StaticString) : StaticString :=
  { static_string := store s.static_string 0 0, string_length := 0 }

/-- The copy loop shared (identically, up to the base offset) by
`sstr_from_cstr` (`base = 0`, `limit = SSTR_MAX_LENGTH`) and
`sstr_append_cstr` (`base = string_length`, `limit = SSTR_MAX_LENGTH -
string_length`): `for (i = 0; i < limit && cstr[i] != '\0'; i++)
buf[base + i] = cstr[i];` returning the buffer and the final `i`. -/
def cstrCopyLoop (limit : Nat) (cstr : Nat → Nat) (base : Nat)
    (buf : Nat → Nat) (i : Nat) : (Nat → Nat) × Nat :=
  if h : i < limit ∧ cstr i ≠ 0 then
    cstrCopyLoop limit cstr base (store buf (base + i) (cstr i)) (i + 1)
  else
    (buf, i)
termination_by limit - i
decreasing_by omega

/-- `sstr_from_cstr` / `ss_from_cstr`: truncating copy, then
`buf[i] = '\0'; string_length = i`. -/
def sstr_from_cstr (CAP : Nat) (s : StaticString) (cstr : Nat → Nat) : StaticString :=
  let p := cstrCopyLoop CAP cstr 0 s.static_string 0
  { static_string := store p.1 p.2 0, string_length := p.2 }

/-- `for (i = start; i < stop; i++) buf[i] = '\0'`.  `sstr_clear` runs it with
`stop = CAP + 1` (its condition is `i <= SSTR_MAX_LENGTH`), `ss_clear` with
`stop = SS_MAX_LENGTH` (its condition is `i < SS_MAX_LENGTH`). -/
def clearLoop (buf : Nat → Nat) (i stop : Nat) : Nat → Nat :=
  if h : i < stop then clearLoop (store buf i 0) (i + 1) stop else buf
termination_by stop - i
decreasing_by omega

/-- `sstr_clear`: zeroes `static_string[0..SSTR_MAX_LENGTH]` inclusive. -/
def sstr_clear (CAP : Nat) (s : StaticString) : StaticString :=
  { static_string := clearLoop s.static_string 0 (CAP + 1), string_length := 0 }

/-- `ss_clear`: its loop condition is `i < SS_MAX_LENGTH`, so it zeroes only
`stack_string[0..SS_MAX_LENGTH)`, not the final cell `SS_MAX_LENGTH`. -/
def ss_clear (s : StaticString) : StaticString :=
  { static_string := clearLoop s.static_string 0 SS_MAX_LENGTH, string_length := 0 }

/-- `sstr_append`: on success writes the byte, the new terminator, bumps the
length and returns 1; on a full string returns 0 leaving the struct alone. -/
def sstr_append (CAP : Nat) (s : StaticString) (c : Nat) : Nat × StaticString :=
  if s.string_length < CAP then
    (1, { static_string := store (store s.static_string s.string_length c)
                                 (s.string_length + 1) 0,
          string_length := s.string_length + 1 })
  else
    (0, s)

/-- `ss_append`: same state change as `sstr_append` with `CAP = 255`, but the
function returns `void`. -/
def ss_append (s : StaticString) (c : Nat) : StaticString :=
  if s.string_length < SS_MAX_LENGTH then
    { static_string := store (store s.static_string s.string_length c)
                             (s.string_length + 1) 0,
      string_length := s.string_length + 1 }
  else
    s

/-- `sstr_append_cstr` (guard `cstr == NULL || string_length >= SSTR_MAX_LENGTH`,
then the bounded copy loop, terminator, length update; returns the count). -/
def sstr_append_cstr (CAP : Nat) (s : StaticString) (cstr : Option (Nat → Nat)) :
    Nat × StaticString :=
  match cstr with
  | none => (0, s)
  | some cs =>
    if s.string_length ≥ CAP then (0, s)
    else
      let p := cstrCopyLoop (CAP - s.string_length) cs s.string_length s.static_string 0
      (p.2, { static_string := store p.1 (s.string_length + p.2) 0,
              string_length := s.string_length + p.2 })

/-- `sstr_replace_char_from_index` / `ss_replace_char_from_index`. -/
def sstr_replace_char_from_index (s : StaticString) (index c : Nat) : Nat × StaticString :=
  if index ≥ s.string_length then (0, s)
  else (1, { static_string := store s.static_string index c,
             string_length := s.string_length })

/-- The scan-and-rewrite loop shared (identically, up to the tested predicate
`p` and the rewrite `g`) by `sstr_replace_all_chars`, `sstr_to_uppercase` and
`sstr_to_lowercase` (and their `ss_` twins):
`for (i = 0; i < len; i++) if (p(buf[i])) { buf[i] = g(buf[i]); count++; }`. -/
def chScanLoop (p : Nat → Bool) (g : Nat → Nat) (len : Nat)
    (buf : Nat → Nat) (i cnt : Nat) : (Nat → Nat) × Nat :=
  if h : i < len then
    if p (buf i) then chScanLoop p g len (store buf i (g (buf i))) (i + 1) (cnt + 1)
    else chScanLoop p g len buf (i + 1) cnt
  else (buf, cnt)
termination_by len - i
decreasing_by all_goals omega

/-- `sstr_replace_all_chars`. -/
def sstr_replace_all_chars (s : StaticString) (oldc newc : Nat) : Nat × StaticString :=
  let p := chScanLoop (fun c => c == oldc) (fun _ => newc)
             s.string_length s.static_string 0 0
  (p.2, { static_string := p.1, string_length := s.string_length })

/-- `sstr_to_uppercase`: `'a' <= c && c <= 'z'` rewritten by `c -= 'a' - 'A'`. -/
def sstr_to_uppercase (s : StaticString) : Nat × StaticString :=
  let p := chScanLoop (fun c => 97 ≤ c && c ≤ 122) (fun c => c - 32)
             s.string_length s.static_string 0 0
  (p.2, { static_string := p.1, string_length := s.string_length })

/-- `sstr_to_lowercase`: `'A' <= c && c <= 'Z'` rewritten by `c += 'a' - 'A'`. -/
def sstr_to_lowercase (s : StaticString) : Nat × StaticString :=
  let p := chScanLoop (fun c => 65 ≤ c && c ≤ 90) (fun c => c + 32)
             s.string_length s.static_string 0 0
  (p.2, { static_string := p.1, string_length := s.string_length })

/-- `for (i = string_length; i > index; --i) buf[i] = buf[i-1];`
(the right-shift inside `sstr_insert_char_at`). -/
def insertShiftLoop (index : Nat) (buf : Nat → Nat) (i : Nat) : Nat → Nat :=
  if h : index < i then insertShiftLoop index (store buf i (buf (i - 1))) (i - 1) else buf
termination_by i
decreasing_by omega

/-- `sstr_insert_char_at`: guard, right shift, write, `string_length++`,
terminator; returns the new length (0 on failure). -/
def sstr_insert_char_at (CAP : Nat) (s : StaticString) (index c : Nat) : Nat × StaticString :=
  if index > s.string_length ∨ s.string_length ≥ CAP then (0, s)
  else
    let b := store (insertShiftLoop index s.static_string s.string_length) index c
    (s.string_length + 1,
     { static_string := store b (s.string_length + 1) 0,
       string_length := s.string_length + 1 })

/-- `for (i = start; i < stop; i++) buf[i] = buf[i+1];` — the left shift of
`sstr_remove_at` (`stop = string_length - 1`) and the inner loop of
`ss_strip_all_whitespace` (`stop = string_length - 1`). -/
def removeShiftLoop (stop : Nat) (buf : Nat → Nat) (i : Nat) : Nat → Nat :=
  if h : i < stop then removeShiftLoop stop (store buf i (buf (i + 1))) (i + 1) else buf
termination_by stop - i
decreasing_by omega

/-- `sstr_remove_at`: out-of-range index returns the length unchanged;
otherwise left shift, zero-fill `buf[string_length - 1]`, decrement. -/
def sstr_remove_at (s : StaticString) (index : Nat) : Nat × StaticString :=
  if index ≥ s.string_length then (s.string_length, s)
  else
    let b := removeShiftLoop (s.string_length - 1) s.static_string index
    (s.string_length - 1,
     { static_string := store b (s.string_length - 1) 0,
       string_length := s.string_length - 1 })

/-- `for (i = end + 1; i < string_length; i++) buf[i - (end-start+1)] = buf[i];`
(the left shift inside `sstr_remove_range`, `off = end - start + 1`). -/
def removeRangeLoop (off stop : Nat) (buf : Nat → Nat) (i : Nat) : Nat → Nat :=
  if h : i < stop then removeRangeLoop off stop (store buf (i - off) (buf i)) (i + 1) else buf
termination_by stop - i
decreasing_by omega

/-- `sstr_remove_range` (inclusive bounds). -/
def sstr_remove_range (s : StaticString) (start e : Nat) : Nat × StaticString :=
  if start ≥ s.string_length ∨ e ≥ s.string_length ∨ start > e then (s.string_length, s)
  else
    let b := removeRangeLoop (e - start + 1) s.string_length s.static_string (e + 1)
    (s.string_length - (e - start + 1),
     { static_string := store b (s.string_length - (e - start + 1)) 0,
       string_length := s.string_length - (e - start + 1) })

/-- `for (i = 0; i < n; i++) dest[i] = src[start + i];`
(the copy inside `sstr_substring`, `n = dest->string_length = end - start + 1`). -/
def substrCopyLoop (src : Nat → Nat) (start n : Nat) (buf : Nat → Nat) (i : Nat) : Nat → Nat :=
  if h : i < n then substrCopyLoop src start n (store buf i (src (start + i))) (i + 1) else buf
termination_by n - i
decreasing_by omega

/-- `sstr_substring` (inclusive `start..end`): returns 1 and fills the
destination on valid indices, otherwise returns 0 with the destination
untouched. -/
def sstr_substring (src dst : StaticString) (start e : Nat) : Nat × StaticString :=
  if start ≥ src.string_length ∨ e ≥ src.string_length ∨ start > e then (0, dst)
  else
    let b := substrCopyLoop src.static_string start (e - start + 1) dst.static_string 0
    (1, { static_string := store b (e - start + 1) 0,
          string_length := e - start + 1 })

/-- `while (len > 0 && ws(buf[len-1])) { len--; count++; }` — the trailing
scan of `sstr_trim_trailing` (`ws = IS_WHITESPACE`) and `ss_trim_trailing`
(`ws` = "is a space"); returns `(final length, count)`. -/
def trimTrailingLoop (ws : Nat → Bool) (buf : Nat → Nat) (len cnt : Nat) : Nat × Nat :=
  if h : 0 < len ∧ ws (buf (len - 1)) = true then trimTrailingLoop ws buf (len - 1) (cnt + 1)
  else (len, cnt)
termination_by len
decreasing_by omega

/-- `sstr_trim_trailing`: trims `IS_WHITESPACE` bytes, rewrites the
terminator, returns the count. -/
def sstr_trim_trailing (s : StaticString) : Nat × StaticString :=
  let p := trimTrailingLoop IS_WHITESPACE s.static_string s.string_length 0
  (p.2, { static_string := store s.static_string p.1 0, string_length := p.1 })

/-- `ss_trim_trailing` — NOTE: the StackString version tests
`stack_string[string_length - 1] == ' '` only, not `IS_WHITESPACE`. -/
def ss_trim_trailing (s : StaticString) : Nat × StaticString :=
  let p := trimTrailingLoop (fun c => c == 32) s.static_string s.string_length 0
  (p.2, { static_string := store s.static_string p.1 0, string_length := p.1 })

/-- `while (offset < string_length && IS_WHITESPACE(buf[offset])) offset++;`. -/
def leadOffsetLoop (buf : Nat → Nat) (len off : Nat) : Nat :=
  if h : off < len ∧ IS_WHITESPACE (buf off) = true then leadOffsetLoop buf len (off + 1)
  else off
termination_by len - off
decreasing_by omega

/-- `for (i = 0; i <= string_length - offset; i++) buf[i] = buf[i + offset];`
(the single left shift of `sstr_trim_leading`, `stop = string_length - offset`). -/
def shiftLeadLoop (off stop : Nat) (buf : Nat → Nat) (i : Nat) : Nat → Nat :=
  if h : i ≤ stop then shiftLeadLoop off stop (store buf i (buf (i + off))) (i + 1) else buf
termination_by stop + 1 - i
decreasing_by omega

/-- `sstr_trim_leading`: finds the first non-whitespace offset, shifts once if
it is positive, returns the offset. -/
def sstr_trim_leading (s : StaticString) : Nat × StaticString :=
  let off := leadOffsetLoop s.static_string s.string_length 0
  if 0 < off then
    (off, { static_string := shiftLeadLoop off (s.string_length - off) s.static_string 0,
            string_length := s.string_length - off })
  else (0, s)

/-- `sstr_trim` = `sstr_trim_leading` then `sstr_trim_trailing`, summed counts. -/
def sstr_trim (s : StaticString) : Nat × StaticString :=
  let p := sstr_trim_leading s
  let q := sstr_trim_trailing p.2
  (p.1 + q.1, q.2)

/-- The single-pass compaction of `sstr_strip_all_whitespace`:
`for (read = 0; read < len; read++) if (!IS_WHITESPACE(buf[read]))
buf[write++] = buf[read];` returning `(buffer, write)`. -/
def stripLoop (len : Nat) (buf : Nat → Nat) (read wri : Nat) : (Nat → Nat) × Nat :=
  if h : read < len then
    if IS_WHITESPACE (buf read) then stripLoop len buf (read + 1) wri
    else stripLoop len (store buf wri (buf read)) (read + 1) (wri + 1)
  else (buf, wri)
termination_by len - read
decreasing_by all_goals omega

/-- `sstr_strip_all_whitespace` (optimized single-pass version). -/
def sstr_strip_all_whitespace (s : StaticString) : StaticString :=
  let p := stripLoop s.string_length s.static_string 0 0
  { static_string := store p.1 p.2 0, string_length := p.2 }

/-- `ss_strip_all_whitespace` outer loop.  On a whitespace hit the body runs
the inner left shift (`removeShiftLoop` with `stop = string_length - 1`),
zero-fills `stack_string[string_length - 1]`, decrements the length and does
`i--`; the `for` increment `i++` then cancels it exactly — also at `i = 0`,
where the `uint8_t` wraparound goes `0 → 255 → 0` — so the scan index is
unchanged on that path. -/
def ssStripLoop (buf : Nat → Nat) (len i : Nat) : (Nat → Nat) × Nat :=
  if h : i < len then
    if IS_WHITESPACE (buf i) then
      ssStripLoop (store (removeShiftLoop (len - 1) buf i) (len - 1) 0) (len - 1) i
    else ssStripLoop buf len (i + 1)
  else (buf, len)
termination_by len - i
decreasing_by all_goals omega

/-- `ss_strip_all_whitespace` (naive repeated-shifting version). -/
def ss_strip_all_whitespace (s : StaticString) : StaticString :=
  let p := ssStripLoop s.static_string s.string_length 0
  { static_string := p.1, string_length := p.2 }

/-- The comparison loop of `sstr_equals_cstr` (reached only on a non-NULL
`cstr`): `while (i < len && cstr[i] != 0) { if (buf[i] != cstr[i]) return 0;
i++; } return (i == len && cstr[i] == 0);`. -/
def eqCstrLoop (sbuf cs : Nat → Nat) (len i : Nat) : Nat :=
  if h : i < len ∧ cs i ≠ 0 then
    if sbuf i ≠ cs i then 0 else eqCstrLoop sbuf cs len (i + 1)
  else
    if i = len ∧ cs i = 0 then 1 else 0
termination_by len - i
decreasing_by omega

/-- `sstr_equals_cstr`: explicit NULL guard returning 0, then the loop. -/
def sstr_equals_cstr (s : StaticString) (cstr : Option (Nat → Nat)) : Nat :=
  match cstr with
  | none => 0
  | some cs => eqCstrLoop s.static_string cs s.string_length 0

/-- One read of `cstr[i]` through a possibly-NULL pointer;
`.error ()` = NULL dereference (undefined behaviour in the C source). -/
def readC (cstr : Option (Nat → Nat)) (i : Nat) : Except Unit Nat :=
  match cstr with
  | none => .error ()
  | some f => .ok (f i)

/-- `ss_equals_cstr` has no NULL guard.  Every control path evaluates
`cstr[i]`: the `while` condition reads it whenever `i < string_length`, and
when the loop is never entered (or exits with `i == string_length`) the
return expression `(i == string_length && cstr[i] == '\0')` reads it; only
an exit with `i < string_length` short-circuits that final `&&`. -/
def ssEqCstrLoop (sbuf : Nat → Nat) (cstr : Option (Nat → Nat)) (len i : Nat) :
    Except Unit Nat :=
  if h : i < len then
    match readC cstr i with
    | .error e => .error e
    | .ok c =>
      if c ≠ 0 then
        (if sbuf i ≠ c then .ok 0 else ssEqCstrLoop sbuf cstr len (i + 1))
      else .ok 0
  else
    match readC cstr i with
    | .error e => .error e
    | .ok c => .ok (if c = 0 then 1 else 0)
termination_by len - i
decreasing_by omega

/-- `ss_equals_cstr` (no NULL guard; see `ssEqCstrLoop`). -/
def ss_equals_cstr (s : StaticString) (cstr : Option (Nat → Nat)) : Except Unit Nat :=
  ssEqCstrLoop s.static_string cstr s.string_length 0

/-- `sstr_pop` / `ss_pop`. -/
def sstr_pop (s : StaticString) : Nat × StaticString :=
  if 0 < s.string_length then
    (s.static_string (s.string_length - 1),
     { static_string := store s.static_string (s.string_length - 1) 0,
       string_length := s.string_length - 1 })
  else (0, s)

/-- `sstr_truncate` (guard `new_length > string_length || new_length > SSTR_MAX_LENGTH`). -/
def sstr_truncate (CAP : Nat) (s : StaticString) (nl : Nat) : Nat × StaticString :=
  if nl > s.string_length ∨ nl > CAP then (0, s)
  else (1, { static_string := store s.static_string nl 0, string_length := nl })

/-- The two-pointer swap loop of `sstr_reverse`:
`while (i < j) { temp = buf[i]; buf[i] = buf[j]; buf[j] = temp; i++; j--; }`. -/
def revLoop (buf : Nat → Nat) (i j : Nat) : Nat → Nat :=
  if h : i < j then revLoop (store (store buf i (buf j)) j (buf i)) (i + 1) (j - 1) else buf
termination_by j - i
decreasing_by omega

/-- `sstr_reverse`: early return on the empty string, else the swap loop over
`[0, string_length - 1]`. -/
def sstr_reverse (s : StaticString) : StaticString :=
  if s.string_length = 0 then s
  else { static_string := revLoop s.static_string 0 (s.string_length - 1),
         string_length := s.string_length }

/-- `ss_reverse` — the StackString body is empty (`// TODO`), so the struct is
left exactly as it was. -/
def ss_reverse (s : StaticString) : StaticString := s

/-- `for (i = 0; i < n; i++) dst[i] = src[i];` (the copy of `sstr_copy`). -/
def copyLoop (src : Nat → Nat) (n : Nat) (buf : Nat → Nat) (i : Nat) : Nat → Nat :=
  if h : i < n then copyLoop src n (store buf i (src i)) (i + 1) else buf
termination_by n - i
decreasing_by omega

/-- `sstr_copy` / `ss_copy` (early return when the source is too long). -/
def sstr_copy (CAP : Nat) (dst src : StaticString) : StaticString :=
  if src.string_length > CAP then dst
  else { static_string :=
           store (copyLoop src.static_string src.string_length dst.static_string 0)
                 src.string_length 0,
         string_length := src.string_length }

/-- The loop of `sstr_last_index_of` with the `uint32_t` index modelled
exactly: the continuation test `i >= 0` is a tautology on an unsigned index
(so the `return -1` after the loop is unreachable), `i--` wraps modulo
`2^32`, and a read of `static_string[i]` with `i > CAP` is an out-of-bounds
access, reported as `.error i`; `none` = fuel exhausted. -/
def lastIdxLoop (CAP : Nat) (buf : Nat → Nat) (ch : Nat) : Nat → Nat → Option (Except Nat Int)
  | _, 0 => none
  | i, fuel + 1 =>
    if i ≥ 0 then
      if i > CAP then some (.error i)
      else if buf i = ch then some (.ok (Int.ofNat i))
      else lastIdxLoop CAP buf ch ((i + (UINT32_MOD - 1)) % UINT32_MOD) fuel
    else some (.ok (-1))

/-- `sstr_last_index_of`: the scan starts at `string_length - 1` computed in
`uint32_t` arithmetic, i.e. at `2^32 - 1` on the empty string. -/
def sstr_last_index_of (CAP : Nat) (s : StaticString) (ch : Nat) (fuel : Nat) :
    Option (Except Nat Int) :=
  lastIdxLoop CAP s.static_string ch ((s.string_length + (UINT32_MOD - 1)) % UINT32_MOD) fuel

/-- The bytes `buf[a..b)` as a list (used to state logical-content equalities). -/
def seg (buf : Nat → Nat) (a b : Nat) : List Nat :=
  if h : a < b then buf a :: seg buf (a + 1) b else []
termination_by b - a
decreasing_by omega

/-- The non-whitespace bytes of `buf[a..b)` in order. -/
def filtSeg (buf : Nat → Nat) (a b : Nat) : List Nat :=
  (seg buf a b).filter (fun c => !IS_WHITESPACE c)

/-! ### Basic facts about single stores -/

theorem store_self (f : Nat → Nat) (i v : Nat) : store f i v i = v := by
  simp [store]

theorem store_other (f : Nat → Nat) (i v k : Nat) (h : k ≠ i) : store f i v k = f k := by
  simp [store, h]

/-! ### Loop characterizations -/

/-- `clearLoop` zeroes exactly the cells `[i, stop)`. -/
theorem clearLoop_spec (buf : Nat → Nat) (i stop : Nat) (k : Nat) :
    clearLoop buf i stop k = if i ≤ k ∧ k < stop then 0 else buf k := by
  induction buf, i, stop using clearLoop.induct with
  | case1 buf i stop h ih =>
    rw [clearLoop, dif_pos h, ih]
    by_cases hk : k = i
    · subst hk
      rw [if_neg (by omega), store_self, if_pos ⟨Nat.le_refl _, h⟩]
    · rw [store_other _ _ _ _ hk]
      have hc : (i + 1 ≤ k ∧ k < stop) ↔ (i ≤ k ∧ k < stop) := by omega
      simp only [hc]
  | case2 buf i stop h =>
    rw [clearLoop, dif_neg h, if_neg (by omega)]

/-- The final index of the bounded copy loop never exceeds the limit. -/
theorem cstrCopyLoop_le (limit : Nat) (cstr : Nat → Nat) (base : Nat)
    (buf : Nat → Nat) (i : Nat) :
    i ≤ limit → (cstrCopyLoop limit cstr base buf i).2 ≤ limit := by
  induction buf, i using cstrCopyLoop.induct limit cstr base with
  | case1 buf i h ih =>
    intro _
    rw [cstrCopyLoop, dif_pos h]
    exact ih (by omega)
  | case2 buf i h =>
    intro hi
    rw [cstrCopyLoop, dif_neg h]
    exact hi

/-- `chScanLoop` writes only below `len`. -/
theorem chScanLoop_untouched (p : Nat → Bool) (g : Nat → Nat) (len : Nat)
    (buf : Nat → Nat) (i cnt : Nat) (k : Nat) (hk : len ≤ k) :
    (chScanLoop p g len buf i cnt).1 k = buf k := by
  induction buf, i, cnt using chScanLoop.induct p g len with
  | case1 buf i cnt h hp ih =>
    rw [chScanLoop, dif_pos h, if_pos hp]
    rw [ih, store_other _ _ _ _ (by omega)]
  | case2 buf i cnt h hp ih =>
    rw [chScanLoop, dif_pos h, if_neg hp]
    exact ih
  | case3 buf i cnt h =>
    rw [chScanLoop, dif_neg h]

/-- The right shift of `sstr_insert_char_at`: cells `(index, i]` receive their
left neighbour's byte, everything else is untouched. -/
theorem insertShiftLoop_spec (index : Nat) (buf : Nat → Nat) (i : Nat) :
    ∀ k, insertShiftLoop index buf i k =
      if index < k ∧ k ≤ i then buf (k - 1) else buf k := by
  induction buf, i using insertShiftLoop.induct index with
  | case1 buf i h ih =>
    intro k
    rw [insertShiftLoop, dif_pos h, ih k]
    by_cases h1 : index < k ∧ k ≤ i - 1
    · rw [if_pos h1, if_pos ⟨h1.1, by omega⟩, store_other _ _ _ _ (by omega)]
    · rw [if_neg h1]
      by_cases h2 : index < k ∧ k ≤ i
      · have hk : k = i := by omega
        subst hk
        rw [store_self, if_pos h2]
      · rw [if_neg h2, store_other _ _ _ _ (by omega)]
  | case2 buf i h =>
    intro k
    rw [insertShiftLoop, dif_neg h, if_neg (by omega)]

/-- The left shift of `sstr_remove_at` (and of the inner loop of
`ss_strip_all_whitespace`): cells `[i, stop)` receive their right neighbour's
byte, everything else is untouched. -/
theorem removeShiftLoop_spec (stop : Nat) (buf : Nat → Nat) (i : Nat) :
    ∀ k, removeShiftLoop stop buf i k =
      if i ≤ k ∧ k < stop then buf (k + 1) else buf k := by
  induction buf, i using removeShiftLoop.induct stop with
  | case1 buf i h ih =>
    intro k
    rw [removeShiftLoop, dif_pos h, ih k]
    by_cases h1 : i + 1 ≤ k ∧ k < stop
    · rw [if_pos h1, if_pos ⟨by omega, h1.2⟩, store_other _ _ _ _ (by omega)]
    · rw [if_neg h1]
      by_cases h2 : i ≤ k ∧ k < stop
      · have hk : k = i := by omega
        subst hk
        rw [store_self, if_pos h2]
      · rw [if_neg h2, store_other _ _ _ _ (by omega)]
  | case2 buf i h =>
    intro k
    rw [removeShiftLoop, dif_neg h, if_neg (by omega)]

/-- The copy loop of `sstr_substring`: cells `[i, n)` of the destination get
`src[start + k]`, everything else is untouched. -/
theorem substrCopyLoop_spec (src : Nat → Nat) (start n : Nat) (buf : Nat → Nat) (i : Nat) :
    ∀ k, substrCopyLoop src start n buf i k =
      if i ≤ k ∧ k < n then src (start + k) else buf k := by
  induction buf, i using substrCopyLoop.induct src start n with
  | case1 buf i h ih =>
    intro k
    rw [substrCopyLoop, dif_pos h, ih k]
    by_cases hk : k = i
    · subst hk
      rw [if_neg (by omega), store_self, if_pos ⟨Nat.le_refl _, h⟩]
    · rw [store_other _ _ _ _ hk]
      have hc : (i + 1 ≤ k ∧ k < n) ↔ (i ≤ k ∧ k < n) := by omega
      simp only [hc]
  | case2 buf i h =>
    intro k
    rw [substrCopyLoop, dif_neg h, if_neg (by omega)]

/-- The trailing-trim scan never increases the length. -/
theorem trimTrailingLoop_fst_le (ws : Nat → Bool) (buf : Nat → Nat) (len cnt : Nat) :
    (trimTrailingLoop ws buf len cnt).1 ≤ len := by
  induction len, cnt using trimTrailingLoop.induct ws buf with
  | case1 len cnt h ih =>
    rw [trimTrailingLoop, dif_pos h]
    omega
  | case2 len cnt h =>
    rw [trimTrailingLoop, dif_neg h]

/-- The leading-whitespace offset never exceeds the length. -/
theorem leadOffsetLoop_le (buf : Nat → Nat) (len : Nat) :
    ∀ off, off ≤ len → leadOffsetLoop buf len off ≤ len := by
  intro off
  induction off using leadOffsetLoop.induct buf len with
  | case1 off h ih =>
    intro _
    rw [leadOffsetLoop, dif_pos h]
    exact ih (by omega)
  | case2 off h =>
    intro hoff
    rw [leadOffsetLoop, dif_neg h]
    exact hoff

/-- After the left shift of `sstr_trim_leading`, the cell at `stop`
(`= string_length - offset`) holds the old byte at `stop + offset`
(`= string_length`). -/
theorem shiftLeadLoop_at_stop (off stop : Nat) (hoff : 1 ≤ off) :
    ∀ (buf : Nat → Nat) (i : Nat), i ≤ stop →
      shiftLeadLoop off stop buf i stop = buf (stop + off) := by
  intro buf i
  induction buf, i using shiftLeadLoop.induct off stop with
  | case1 buf i h ih =>
    intro _
    rw [shiftLeadLoop, dif_pos h]
    by_cases h1 : i + 1 ≤ stop
    · rw [ih h1, store_other _ _ _ _ (by omega)]
    · have hi : i = stop := by omega
      subst hi
      rw [shiftLeadLoop, dif_neg (by omega), store_self]
  | case2 buf i h =>
    intro hi
    omega

/-- The two-pointer swap loop of `sstr_reverse` mirrors the cells of `[i, j]`
around its midpoint and leaves everything else untouched. -/
theorem revLoop_spec : ∀ (buf : Nat → Nat) (i j : Nat) (k : Nat),
    revLoop buf i j k = if i ≤ k ∧ k ≤ j then buf (i + j - k) else buf k := by
  intro buf i j
  induction buf, i, j using revLoop.induct with
  | case1 buf i j h ih =>
    intro k
    rw [revLoop, dif_pos h, ih k]
    by_cases h1 : i + 1 ≤ k ∧ k ≤ j - 1
    · have he : i + 1 + (j - 1) - k = i + j - k := by omega
      rw [if_pos h1, he, store_other _ _ _ _ (by omega), store_other _ _ _ _ (by omega),
          if_pos (by omega)]
    · rw [if_neg h1]
      by_cases hk : k = i
      · subst hk
        have he : k + j - k = j := by omega
        rw [store_other _ _ _ _ (by omega), store_self, if_pos ⟨Nat.le_refl _, by omega⟩, he]
      · by_cases hk2 : k = j
        · subst hk2
          have he : i + k - k = i := by omega
          rw [store_self, if_pos ⟨by omega, Nat.le_refl _⟩, he]
        · rw [store_other _ _ _ _ hk2, store_other _ _ _ _ hk, if_neg (by omega)]
  | case2 buf i j h =>
    intro k
    rw [revLoop, dif_neg h]
    by_cases hc : i ≤ k ∧ k ≤ j
    · have he : i + j - k = k := by omega
      rw [if_pos hc, he]
    · rw [if_neg hc]

/-! ### Segments of a buffer as lists -/

theorem seg_empty (buf : Nat → Nat) (a b : Nat) (h : b ≤ a) : seg buf a b = [] := by
  rw [seg, dif_neg (by omega)]

theorem seg_cons (buf : Nat → Nat) (a b : Nat) (h : a < b) :
    seg buf a b = buf a :: seg buf (a + 1) b := by
  rw [seg, dif_pos h]

theorem seg_length (buf : Nat → Nat) : ∀ (a b : Nat), (seg buf a b).length = b - a := by
  intro a b
  induction a, b using seg.induct buf with
  | case1 a b h ih =>
    rw [seg_cons buf a b h, List.length_cons, ih]
    omega
  | case2 a b h =>
    rw [seg_empty buf a b (by omega), List.length_nil]
    omega

theorem seg_congr (f g : Nat → Nat) : ∀ (a b : Nat),
    (∀ k, a ≤ k → k < b → f k = g k) → seg f a b = seg g a b := by
  intro a b
  induction a, b using seg.induct f with
  | case1 a b h ih =>
    intro hfg
    rw [seg_cons f a b h, seg_cons g a b h, hfg a (Nat.le_refl _) h,
        ih (fun k hk1 hk2 => hfg k (by omega) hk2)]
  | case2 a b h =>
    intro _
    rw [seg_empty f a b (by omega), seg_empty g a b (by omega)]

theorem seg_shift (g : Nat → Nat) : ∀ (a b : Nat),
    seg (fun k => g (k + 1)) a b = seg g (a + 1) (b + 1) := by
  intro a b
  induction a, b using seg.induct (fun k => g (k + 1)) with
  | case1 a b h ih =>
    rw [seg_cons _ a b h, seg_cons g (a + 1) (b + 1) (by omega), ih]
  | case2 a b h =>
    rw [seg_empty _ a b (by omega), seg_empty g (a + 1) (b + 1) (by omega)]

theorem filtSeg_empty (buf : Nat → Nat) (a b : Nat) (h : b ≤ a) : filtSeg buf a b = [] := by
  rw [filtSeg, seg_empty buf a b h, List.filter_nil]

theorem filtSeg_cons_ws (buf : Nat → Nat) (a b : Nat) (h : a < b)
    (hws : IS_WHITESPACE (buf a) = true) : filtSeg buf a b = filtSeg buf (a + 1) b := by
  rw [filtSeg, filtSeg, seg_cons buf a b h, List.filter_cons_of_neg (by simp [hws])]

theorem filtSeg_cons_keep (buf : Nat → Nat) (a b : Nat) (h : a < b)
    (hws : IS_WHITESPACE (buf a) = false) :
    filtSeg buf a b = buf a :: filtSeg buf (a + 1) b := by
  rw [filtSeg, filtSeg, seg_cons buf a b h, List.filter_cons_of_pos (by simp [hws])]

theorem filtSeg_congr (f g : Nat → Nat) (a b : Nat)
    (h : ∀ k, a ≤ k → k < b → f k = g k) : filtSeg f a b = filtSeg g a b := by
  rw [filtSeg, filtSeg, seg_congr f g a b h]

theorem filtSeg_length_le (buf : Nat → Nat) (a b : Nat) :
    (filtSeg buf a b).length ≤ b - a := by
  calc (filtSeg buf a b).length ≤ (seg buf a b).length := List.length_filter_le _ _
  _ = b - a := seg_length buf a b

/-! ### The two whitespace-stripping loops compute the filtered segment -/

/-- Full characterization of the single-pass compaction loop of
`sstr_strip_all_whitespace`: starting at cursors `wri ≤ read`, the final write
cursor advances by the number of non-whitespace bytes of `buf[read..len)`,
cells below `wri` are untouched, and the cells `[wri, final)` receive exactly
those bytes in order. -/
theorem stripLoop_spec (len : Nat) : ∀ (buf : Nat → Nat) (read wri : Nat), wri ≤ read →
    ((stripLoop len buf read wri).2 = wri + (filtSeg buf read len).length ∧
     (∀ k, k < wri → (stripLoop len buf read wri).1 k = buf k) ∧
     (∀ j, j < (filtSeg buf read len).length →
        (stripLoop len buf read wri).1 (wri + j) = (filtSeg buf read len).getD j 0)) := by
  intro buf read wri
  induction buf, read, wri using stripLoop.induct len with
  | case1 buf read wri h hws ih =>
    intro hwr
    obtain ⟨ih1, ih2, ih3⟩ := ih (by omega)
    rw [stripLoop, dif_pos h, if_pos hws]
    rw [filtSeg_cons_ws buf read len h hws]
    exact ⟨ih1, ih2, ih3⟩
  | case2 buf read wri h hws ih =>
    intro hwr
    obtain ⟨ih1, ih2, ih3⟩ := ih (by omega)
    have hbuf : filtSeg (store buf wri (buf read)) (read + 1) len = filtSeg buf (read + 1) len :=
      filtSeg_congr _ _ _ _ (fun k hk1 hk2 => store_other _ _ _ _ (by omega))
    have hkeep : filtSeg buf read len = buf read :: filtSeg buf (read + 1) len :=
      filtSeg_cons_keep buf read len h (by simpa using hws)
    rw [stripLoop, dif_pos h, if_neg (by simp [hws])]
    refine ⟨?_, ?_, ?_⟩
    · rw [ih1, hbuf, hkeep, List.length_cons]
      omega
    · intro k hk
      rw [ih2 k (by omega), store_other _ _ _ _ (by omega)]
    · intro j hj
      match j with
      | 0 =>
        have h2 : (stripLoop len (store buf wri (buf read)) (read + 1) (wri + 1)).1 (wri + 0)
            = store buf wri (buf read) wri := by
          simpa using ih2 wri (by omega)
        rw [h2, store_self, hkeep, List.getD_cons_zero]
      | j + 1 =>
        have hj2 : j < (filtSeg (store buf wri (buf read)) (read + 1) len).length := by
          rw [hbuf]
          rw [hkeep, List.length_cons] at hj
          omega
        have he : wri + (j + 1) = (wri + 1) + j := by omega
        rw [he, ih3 j hj2, hbuf, hkeep, List.getD_cons_succ]
  | case3 buf read wri h =>
    intro hwr
    rw [stripLoop, dif_neg h]
    rw [filtSeg_empty buf read len (by omega), List.length_nil]
    exact ⟨by omega, fun k hk => rfl, fun j hj => by omega⟩

/-- Full characterization of the repeated-shifting loop of
`ss_strip_all_whitespace`: from scan index `i ≤ len`, the final length is `i`
plus the number of non-whitespace bytes of `buf[i..len)`, cells below `i` are
untouched, and the cells from `i` on receive exactly those bytes in order. -/
theorem ssStripLoop_spec : ∀ (buf : Nat → Nat) (len i : Nat), i ≤ len →
    ((ssStripLoop buf len i).2 = i + (filtSeg buf i len).length ∧
     (∀ k, k < i → (ssStripLoop buf len i).1 k = buf k) ∧
     (∀ j, j < (filtSeg buf i len).length →
        (ssStripLoop buf len i).1 (i + j) = (filtSeg buf i len).getD j 0)) := by
  intro buf len i
  induction buf, len, i using ssStripLoop.induct with
  | case1 buf len i h hws ih =>
    intro hi
    obtain ⟨ih1, ih2, ih3⟩ := ih (by omega)
    rw [ssStripLoop, dif_pos h, if_pos hws]
    have hseg : filtSeg (store (removeShiftLoop (len - 1) buf i) (len - 1) 0) i (len - 1)
        = filtSeg buf (i + 1) len := by
      have h1 : seg (store (removeShiftLoop (len - 1) buf i) (len - 1) 0) i (len - 1)
          = seg (fun k => buf (k + 1)) i (len - 1) :=
        seg_congr _ _ _ _ (fun k hk1 hk2 => by
          rw [store_other _ _ _ _ (by omega), removeShiftLoop_spec, if_pos ⟨hk1, hk2⟩])
      have h2 : seg (fun k => buf (k + 1)) i (len - 1) = seg buf (i + 1) len := by
        rw [seg_shift]
        congr 1
        omega
      rw [filtSeg, h1, h2, filtSeg]
    have hws2 : filtSeg buf i len = filtSeg buf (i + 1) len :=
      filtSeg_cons_ws buf i len h hws
    refine ⟨?_, ?_, ?_⟩
    · rw [ih1, hseg, hws2]
    · intro k hk
      rw [ih2 k hk, store_other _ _ _ _ (by omega), removeShiftLoop_spec,
          if_neg (by omega)]
    · intro j hj
      rw [hws2]
      rw [hws2] at hj
      refine (ih3 j ?_).trans ?_
      · rw [hseg]
        exact hj
      · rw [hseg]
  | case2 buf len i h hws ih =>
    intro hi
    obtain ⟨ih1, ih2, ih3⟩ := ih (by omega)
    rw [ssStripLoop, dif_pos h, if_neg hws]
    have hkeep : filtSeg buf i len = buf i :: filtSeg buf (i + 1) len :=
      filtSeg_cons_keep buf i len h (by simpa using hws)
    refine ⟨?_, ?_, ?_⟩
    · rw [ih1, hkeep, List.length_cons]
      omega
    · intro k hk
      exact ih2 k (by omega)
    · intro j hj
      match j with
      | 0 =>
        have h2 : (ssStripLoop buf len (i + 1)).1 (i + 0) = buf i := by
          simpa using ih2 i (by omega)
        rw [h2, hkeep, List.getD_cons_zero]
      | j + 1 =>
        have hj2 : j < (filtSeg buf (i + 1) len).length := by
          rw [hkeep, List.length_cons] at hj
          omega
        have he : i + (j + 1) = (i + 1) + j := by omega
        rw [he, ih3 j hj2, hkeep, List.getD_cons_succ]
  | case3 buf len i h =>
    intro hi
    rw [ssStripLoop, dif_neg h]
    rw [filtSeg_empty buf i len (by omega), List.length_nil]
    exact ⟨by omega, fun k hk => rfl, fun j hj => by omega⟩

/-! ### The bounds-and-terminator invariant and its preservation -/

/-- The data-model invariant: the length never exceeds the capacity and the
byte at index `string_length` is the zero terminator. -/
def StrInv (CAP : Nat) (s : StaticString) : Prop :=
  s.string_length ≤ CAP ∧ s.static_string s.string_length = 0

theorem inv_init (CAP : Nat) (s : StaticString) : StrInv CAP (sstr_init s) := by
  refine ⟨Nat.zero_le _, ?_⟩
  show store s.static_string 0 0 0 = 0
  exact store_self _ _ _

theorem inv_from_cstr (CAP : Nat) (s : StaticString) (cstr : Nat → Nat) :
    StrInv CAP (sstr_from_cstr CAP s cstr) := by
  refine ⟨?_, ?_⟩
  · exact cstrCopyLoop_le _ _ _ _ _ (Nat.zero_le _)
  · exact store_self _ _ _

theorem inv_clear (CAP : Nat) (s : StaticString) : StrInv CAP (sstr_clear CAP s) := by
  refine ⟨Nat.zero_le _, ?_⟩
  show clearLoop s.static_string 0 (CAP + 1) 0 = 0
  rw [clearLoop_spec, if_pos ⟨Nat.le_refl _, by omega⟩]

theorem inv_append (CAP : Nat) (s : StaticString) (c : Nat) (h : StrInv CAP s) :
    StrInv CAP (sstr_append CAP s c).2 := by
  by_cases hlt : s.string_length < CAP
  · simp only [sstr_append, if_pos hlt, StrInv]
    exact ⟨by omega, store_self _ _ _⟩
  · simp only [sstr_append, if_neg hlt]
    exact h

theorem inv_append_cstr (CAP : Nat) (s : StaticString) (cstr : Option (Nat → Nat))
    (h : StrInv CAP s) : StrInv CAP (sstr_append_cstr CAP s cstr).2 := by
  match cstr with
  | none => exact h
  | some cs =>
    by_cases hge : s.string_length ≥ CAP
    · simp only [sstr_append_cstr, if_pos hge]
      exact h
    · simp only [sstr_append_cstr, if_neg hge, StrInv]
      refine ⟨?_, store_self _ _ _⟩
      have := cstrCopyLoop_le (CAP - s.string_length) cs s.string_length
        s.static_string 0 (Nat.zero_le _)
      omega

theorem inv_replace_char (CAP : Nat) (s : StaticString) (index c : Nat) (h : StrInv CAP s) :
    StrInv CAP (sstr_replace_char_from_index s index c).2 := by
  by_cases hge : index ≥ s.string_length
  · simp only [sstr_replace_char_from_index, if_pos hge]
    exact h
  · simp only [sstr_replace_char_from_index, if_neg hge, StrInv]
    exact ⟨h.1, by rw [store_other _ _ _ _ (by omega)]; exact h.2⟩

theorem inv_replace_all (CAP : Nat) (s : StaticString) (oldc newc : Nat) (h : StrInv CAP s) :
    StrInv CAP (sstr_replace_all_chars s oldc newc).2 := by
  simp only [sstr_replace_all_chars, StrInv]
  exact ⟨h.1, by rw [chScanLoop_untouched _ _ _ _ _ _ _ (Nat.le_refl _)]; exact h.2⟩

theorem inv_to_uppercase (CAP : Nat) (s : StaticString) (h : StrInv CAP s) :
    StrInv CAP (sstr_to_uppercase s).2 := by
  simp only [sstr_to_uppercase, StrInv]
  exact ⟨h.1, by rw [chScanLoop_untouched _ _ _ _ _ _ _ (Nat.le_refl _)]; exact h.2⟩

theorem inv_to_lowercase (CAP : Nat) (s : StaticString) (h : StrInv CAP s) :
    StrInv CAP (sstr_to_lowercase s).2 := by
  simp only [sstr_to_lowercase, StrInv]
  exact ⟨h.1, by rw [chScanLoop_untouched _ _ _ _ _ _ _ (Nat.le_refl _)]; exact h.2⟩

theorem inv_insert_char_at (CAP : Nat) (s : StaticString) (index c : Nat) (h : StrInv CAP s) :
    StrInv CAP (sstr_insert_char_at CAP s index c).2 := by
  by_cases hg : index > s.string_length ∨ s.string_length ≥ CAP
  · simp only [sstr_insert_char_at, if_pos hg]
    exact h
  · simp only [sstr_insert_char_at, if_neg hg, StrInv]
    exact ⟨by omega, store_self _ _ _⟩

theorem inv_remove_at (CAP : Nat) (s : StaticString) (index : Nat) (h : StrInv CAP s) :
    StrInv CAP (sstr_remove_at s index).2 := by
  by_cases hge : index ≥ s.string_length
  · simp only [sstr_remove_at, if_pos hge]
    exact h
  · simp only [sstr_remove_at, if_neg hge, StrInv]
    have h1 := h.1
    exact ⟨by omega, store_self _ _ _⟩

theorem inv_remove_range (CAP : Nat) (s : StaticString) (start e : Nat) (h : StrInv CAP s) :
    StrInv CAP (sstr_remove_range s start e).2 := by
  by_cases hg : start ≥ s.string_length ∨ e ≥ s.string_length ∨ start > e
  · simp only [sstr_remove_range, if_pos hg]
    exact h
  · simp only [sstr_remove_range, if_neg hg, StrInv]
    have h1 := h.1
    exact ⟨by omega, store_self _ _ _⟩

theorem inv_substring (CAP : Nat) (src dst : StaticString) (start e : Nat)
    (hsrc : StrInv CAP src) (hdst : StrInv CAP dst) :
    StrInv CAP (sstr_substring src dst start e).2 := by
  by_cases hg : start ≥ src.string_length ∨ e ≥ src.string_length ∨ start > e
  · simp only [sstr_substring, if_pos hg]
    exact hdst
  · simp only [sstr_substring, if_neg hg, StrInv]
    have := hsrc.1
    exact ⟨by omega, store_self _ _ _⟩

theorem inv_trim_trailing (CAP : Nat) (s : StaticString) (h : StrInv CAP s) :
    StrInv CAP (sstr_trim_trailing s).2 := by
  simp only [sstr_trim_trailing, StrInv]
  have := trimTrailingLoop_fst_le IS_WHITESPACE s.static_string s.string_length 0
  have h1 := h.1
  exact ⟨by omega, store_self _ _ _⟩

theorem inv_trim_leading (CAP : Nat) (s : StaticString) (h : StrInv CAP s) :
    StrInv CAP (sstr_trim_leading s).2 := by
  by_cases hoff : 0 < leadOffsetLoop s.static_string s.string_length 0
  · simp only [sstr_trim_leading, if_pos hoff, StrInv]
    have hle := leadOffsetLoop_le s.static_string s.string_length 0 (Nat.zero_le _)
    have h1 := h.1
    refine ⟨by omega, ?_⟩
    rw [shiftLeadLoop_at_stop _ _ (by omega) _ _ (Nat.zero_le _)]
    have he : s.string_length - leadOffsetLoop s.static_string s.string_length 0 +
        leadOffsetLoop s.static_string s.string_length 0 = s.string_length := by omega
    rw [he]
    exact h.2
  · simp only [sstr_trim_leading, if_neg hoff]
    exact h

theorem inv_trim (CAP : Nat) (s : StaticString) (h : StrInv CAP s) :
    StrInv CAP (sstr_trim s).2 :=
  inv_trim_trailing CAP _ (inv_trim_leading CAP s h)

theorem inv_strip (CAP : Nat) (s : StaticString) (h : StrInv CAP s) :
    StrInv CAP (sstr_strip_all_whitespace s) := by
  simp only [sstr_strip_all_whitespace, StrInv]
  refine ⟨?_, store_self _ _ _⟩
  have hs := (stripLoop_spec s.string_length s.static_string 0 0 (Nat.le_refl _)).1
  have hf := filtSeg_length_le s.static_string 0 s.string_length
  have h1 := h.1
  omega

theorem inv_pop (CAP : Nat) (s : StaticString) (h : StrInv CAP s) :
    StrInv CAP (sstr_pop s).2 := by
  by_cases hpos : 0 < s.string_length
  · simp only [sstr_pop, if_pos hpos, StrInv]
    have h1 := h.1
    exact ⟨by omega, store_self _ _ _⟩
  · simp only [sstr_pop, if_neg hpos]
    exact h

theorem inv_truncate (CAP : Nat) (s : StaticString) (nl : Nat) (h : StrInv CAP s) :
    StrInv CAP (sstr_truncate CAP s nl).2 := by
  by_cases hg : nl > s.string_length ∨ nl > CAP
  · simp only [sstr_truncate, if_pos hg]
    exact h
  · simp only [sstr_truncate, if_neg hg, StrInv]
    exact ⟨by omega, store_self _ _ _⟩

theorem inv_reverse (CAP : Nat) (s : StaticString) (h : StrInv CAP s) :
    StrInv CAP (sstr_reverse s) := by
  by_cases h0 : s.string_length = 0
  · simp only [sstr_reverse, if_pos h0]
    exact h
  · simp only [sstr_reverse, if_neg h0, StrInv]
    refine ⟨h.1, ?_⟩
    rw [revLoop_spec, if_neg (by omega)]
    exact h.2

theorem inv_copy (CAP : Nat) (dst src : StaticString) (hdst : StrInv CAP dst) :
    StrInv CAP (sstr_copy CAP dst src) := by
  by_cases hg : src.string_length > CAP
  · simp only [sstr_copy, if_pos hg]
    exact hdst
  · simp only [sstr_copy, if_neg hg, StrInv]
    exact ⟨by omega, store_self _ _ _⟩

/-- States produced from `sstr_init` / `sstr_from_cstr` by any sequence of the
public mutating StaticString operations (for `sstr_substring` and `sstr_copy`
the other struct involved must itself be reachable). -/
inductive Reachable (CAP : Nat) : StaticString → Prop where
  | init (s) : Reachable CAP (sstr_init s)
  | from_cstr (s cstr) : Reachable CAP (sstr_from_cstr CAP s cstr)
  | clear (s) : Reachable CAP s → Reachable CAP (sstr_clear CAP s)
  | append (s c) : Reachable CAP s → Reachable CAP (sstr_append CAP s c).2
  | append_cstr (s cstr) : Reachable CAP s →
      Reachable CAP (sstr_append_cstr CAP s cstr).2
  | replace_char (s index c) : Reachable CAP s →
      Reachable CAP (sstr_replace_char_from_index s index c).2
  | replace_all (s oldc newc) : Reachable CAP s →
      Reachable CAP (sstr_replace_all_chars s oldc newc).2
  | insert_char_at (s index c) : Reachable CAP s →
      Reachable CAP (sstr_insert_char_at CAP s index c).2
  | remove_at (s index) : Reachable CAP s → Reachable CAP (sstr_remove_at s index).2
  | remove_range (s start e) : Reachable CAP s →
      Reachable CAP (sstr_remove_range s start e).2
  | substring (src dst start e) : Reachable CAP src → Reachable CAP dst →
      Reachable CAP (sstr_substring src dst start e).2
  | trim_trailing (s) : Reachable CAP s → Reachable CAP (sstr_trim_trailing s).2
  | trim_leading (s) : Reachable CAP s → Reachable CAP (sstr_trim_leading s).2
  | trim (s) : Reachable CAP s → Reachable CAP (sstr_trim s).2
  | strip_all_whitespace (s) : Reachable CAP s →
      Reachable CAP (sstr_strip_all_whitespace s)
  | pop (s) : Reachable CAP s → Reachable CAP (sstr_pop s).2
  | truncate (s nl) : Reachable CAP s → Reachable CAP (sstr_truncate CAP s nl).2
  | reverse (s) : Reachable CAP s → Reachable CAP (sstr_reverse s)
  | copy (dst src) : Reachable CAP dst → Reachable CAP src →
      Reachable CAP (sstr_copy CAP dst src)
  | to_uppercase (s) : Reachable CAP s → Reachable CAP (sstr_to_uppercase s).2
  | to_lowercase (s) : Reachable CAP s → Reachable CAP (sstr_to_lowercase s).2

/-! ### Claims -/

/-- Claim C1: for every reachable StaticString state (produced from
`sstr_init` / `sstr_from_cstr` followed by any sequence of public operations),
the length field never exceeds the capacity `CAP` and the buffer byte at index
`string_length` is the zero terminator; every public operation preserves this
invariant (the induction cases are exactly the per-operation preservation
lemmas `inv_*` above). -/
theorem claim_C1 (CAP : Nat) (s : StaticString) (h : Reachable CAP s) :
    s.string_length ≤ CAP ∧ s.static_string s.string_length = 0 := by
  induction h with
  | init s => exact inv_init CAP s
  | from_cstr s cstr => exact inv_from_cstr CAP s cstr
  | clear s _ => exact inv_clear CAP s
  | append s c _ ih => exact inv_append CAP s c ih
  | append_cstr s cstr _ ih => exact inv_append_cstr CAP s cstr ih
  | replace_char s index c _ ih => exact inv_replace_char CAP s index c ih
  | replace_all s oldc newc _ ih => exact inv_replace_all CAP s oldc newc ih
  | insert_char_at s index c _ ih => exact inv_insert_char_at CAP s index c ih
  | remove_at s index _ ih => exact inv_remove_at CAP s index ih
  | remove_range s start e _ ih => exact inv_remove_range CAP s start e ih
  | substring src dst start e _ _ ih1 ih2 => exact inv_substring CAP src dst start e ih1 ih2
  | trim_trailing s _ ih => exact inv_trim_trailing CAP s ih
  | trim_leading s _ ih => exact inv_trim_leading CAP s ih
  | trim s _ ih => exact inv_trim CAP s ih
  | strip_all_whitespace s _ ih => exact inv_strip CAP s ih
  | pop s _ ih => exact inv_pop CAP s ih
  | truncate s nl _ ih => exact inv_truncate CAP s nl ih
  | reverse s _ ih => exact inv_reverse CAP s ih
  | copy dst src _ _ ih1 _ => exact inv_copy CAP dst src ih1
  | to_uppercase s _ ih => exact inv_to_uppercase CAP s ih
  | to_lowercase s _ ih => exact inv_to_lowercase CAP s ih

/-- Witness for C1: the invariant holds at a concrete reachable state
(`sstr_init` run on a dirty struct, capacity 255). -/
theorem claim_C1_witness :
    Reachable 255 (sstr_init { static_string := fun _ => 7, string_length := 3 }) ∧
    (sstr_init { static_string := fun _ => 7, string_length := 3 }).string_length ≤ 255 ∧
    (sstr_init { static_string := fun _ => 7, string_length := 3 }).static_string
      (sstr_init { static_string := fun _ => 7, string_length := 3 }).string_length = 0 :=
  ⟨Reachable.init _, claim_C1 255 _ (Reachable.init _)⟩

/-- The state after a sequence of `sstr_append` calls, each call discarding
the returned success flag. -/
def appendSeq (CAP : Nat) (s : StaticString) (cs : List Nat) : StaticString :=
  cs.foldl (fun t c => (sstr_append CAP t c).2) s

theorem appendSeq_length (CAP : Nat) : ∀ (cs : List Nat) (s : StaticString),
    s.string_length + cs.length ≤ CAP →
    (appendSeq CAP s cs).string_length = s.string_length + cs.length := by
  intro cs
  induction cs with
  | nil =>
    intro s _
    simp [appendSeq]
  | cons c cs ih =>
    intro s h
    have hlt : s.string_length < CAP := by
      simp only [List.length_cons] at h
      omega
    have hstep : appendSeq CAP s (c :: cs) = appendSeq CAP (sstr_append CAP s c).2 cs := rfl
    have h2 : (sstr_append CAP s c).2.string_length = s.string_length + 1 := by
      simp [sstr_append, if_pos hlt]
    rw [hstep, ih (sstr_append CAP s c).2 (by rw [h2]; simp only [List.length_cons] at h; omega),
        h2]
    simp only [List.length_cons]
    omega

/-- Claim C3: `sstr_append` returns 1 exactly when `string_length < CAP`; on
success it appends the byte, keeps the prior content and re-terminates; at
capacity it returns 0 with the struct unchanged.  `ss_append` (which returns
`void`) makes the same state change.  Starting from the empty string, any
`CAP` consecutive appends all succeed and the `CAP+1`-th call fails with the
state unchanged. -/
theorem claim_C3 (CAP : Nat) (s t : StaticString) (c : Nat) (cs : List Nat) :
    ((sstr_append CAP s c).1 = 1 ↔ s.string_length < CAP) ∧
    (s.string_length < CAP →
      ((sstr_append CAP s c).2.string_length = s.string_length + 1 ∧
       (sstr_append CAP s c).2.static_string s.string_length = c ∧
       (∀ k, k < s.string_length →
         (sstr_append CAP s c).2.static_string k = s.static_string k) ∧
       (sstr_append CAP s c).2.static_string (s.string_length + 1) = 0)) ∧
    (CAP ≤ s.string_length →
      (sstr_append CAP s c).1 = 0 ∧ (sstr_append CAP s c).2 = s) ∧
    (t.string_length < SS_MAX_LENGTH →
      ((ss_append t c).string_length = t.string_length + 1 ∧
       (ss_append t c).static_string t.string_length = c ∧
       ∀ k, k < t.string_length → (ss_append t c).static_string k = t.static_string k)) ∧
    (SS_MAX_LENGTH ≤ t.string_length → ss_append t c = t) ∧
    (cs.length < CAP → (sstr_append CAP (appendSeq CAP (sstr_init s) cs) c).1 = 1) ∧
    (cs.length = CAP →
      (sstr_append CAP (appendSeq CAP (sstr_init s) cs) c).1 = 0 ∧
      (sstr_append CAP (appendSeq CAP (sstr_init s) cs) c).2
        = appendSeq CAP (sstr_init s) cs) := by
  have hinit : (sstr_init s).string_length = 0 := rfl
  refine ⟨?_, ?_, ?_, ?_, ?_, ?_, ?_⟩
  · by_cases hlt : s.string_length < CAP
    · simp [sstr_append, if_pos hlt, hlt]
    · simp [sstr_append, if_neg hlt, hlt]
  · intro hlt
    simp only [sstr_append, if_pos hlt]
    refine ⟨trivial, ?_, ?_, store_self _ _ _⟩
    · rw [store_other _ _ _ _ (by omega), store_self]
    · intro k hk
      rw [store_other _ _ _ _ (by omega), store_other _ _ _ _ (by omega)]
  · intro hge
    simp only [sstr_append, if_neg (by omega : ¬s.string_length < CAP)]
    exact ⟨trivial, trivial⟩
  · intro hlt
    simp only [ss_append, if_pos hlt]
    refine ⟨trivial, ?_, ?_⟩
    · rw [store_other _ _ _ _ (by omega), store_self]
    · intro k hk
      rw [store_other _ _ _ _ (by omega), store_other _ _ _ _ (by omega)]
  · intro hge
    simp only [ss_append, if_neg (by omega : ¬t.string_length < SS_MAX_LENGTH)]
  · intro hlen
    have hl : (appendSeq CAP (sstr_init s) cs).string_length = cs.length := by
      have := appendSeq_length CAP cs (sstr_init s) (by rw [hinit]; omega)
      rw [hinit] at this
      omega
    simp [sstr_append, hl, hlen]
  · intro hlen
    have hl : (appendSeq CAP (sstr_init s) cs).string_length = cs.length := by
      have := appendSeq_length CAP cs (sstr_init s) (by rw [hinit]; omega)
      rw [hinit] at this
      omega
    simp only [sstr_append, if_neg (by omega : ¬(appendSeq CAP (sstr_init s) cs).string_length < CAP)]
    exact ⟨trivial, trivial⟩

/-- Witness for C3: with capacity 2, appending to a string of length 1
succeeds (new length 2), appending to a full string of length 2 fails. -/
theorem claim_C3_witness :
    (sstr_append 2 { static_string := fun _ => 0, string_length := 1 } 65).2.string_length = 2 ∧
    (sstr_append 2 { static_string := fun _ => 0, string_length := 2 } 65).1 = 0 :=
  ⟨((claim_C3 2 { static_string := fun _ => 0, string_length := 1 }
      { static_string := fun _ => 0, string_length := 0 } 65 []).2.1 (by decide)).1,
   ((claim_C3 2 { static_string := fun _ => 0, string_length := 2 }
      { static_string := fun _ => 0, string_length := 0 } 65 []).2.2.1 (by decide)).1⟩

set_option maxRecDepth 4000 in
/-- Claim C2 (defect in `sstr_last_index_of`): on the empty string the
`uint32_t` scan start `string_length - 1` underflows to `2^32 - 1 =
4294967295`, so the very first buffer read is out of bounds (`4294967295 >
SSTR_MAX_LENGTH = 255`) — for every buffer contents, search byte and positive
fuel — instead of the claimed in-bounds scan returning `-1`. -/
theorem claim_C2 (buf : Nat → Nat) (ch fuel : Nat) :
    sstr_last_index_of 255 { static_string := buf, string_length := 0 } ch (fuel + 1)
      = some (Except.error 4294967295) := by
  rw [sstr_last_index_of]
  norm_num [UINT32_MOD]
  rw [lastIdxLoop]
  norm_num

/-- The two-byte string `"a\t"` (bytes 97, 9). -/
def aTab : StaticString :=
  { static_string := fun k => if k = 0 then 97 else if k = 1 then 9 else 0,
    string_length := 2 }

/-- Claim C4 (defect in `ss_trim_trailing`): the StackString version tests
only `' '`, so on `"a\t"` it removes nothing (count 0, length still 2) even
though the trailing tab is whitespace under the shared `IS_WHITESPACE` macro —
the StaticString version removes it (count 1, length 1). -/
theorem claim_C4 :
    (ss_trim_trailing aTab).1 = 0 ∧
    (ss_trim_trailing aTab).2.string_length = 2 ∧
    IS_WHITESPACE (aTab.static_string (aTab.string_length - 1)) = true ∧
    (sstr_trim_trailing aTab).1 = 1 ∧
    (sstr_trim_trailing aTab).2.string_length = 1 := by
  refine ⟨?_, ?_, by decide, ?_, ?_⟩ <;>
    simp [ss_trim_trailing, sstr_trim_trailing, trimTrailingLoop, aTab, IS_WHITESPACE]

/-- A struct whose buffer bytes are all 1 (stale data). -/
def dirty : StaticString := { static_string := fun _ => 1, string_length := 0 }

/-- Claim C5 (defect in `ss_clear`): `sstr_clear` zeroes every byte
`0..CAP` of the buffer, but `ss_clear`'s loop stops at `i < SS_MAX_LENGTH`,
leaving the final cell `255` untouched (still 1 on the all-ones struct) even
though it zeroes all cells below it and resets the length. -/
theorem claim_C5 :
    (∀ (CAP : Nat) (s : StaticString) (k : Nat), k ≤ CAP →
      (sstr_clear CAP s).static_string k = 0) ∧
    (ss_clear dirty).static_string 255 = 1 ∧
    (∀ k, k < 255 → (ss_clear dirty).static_string k = 0) ∧
    (ss_clear dirty).string_length = 0 := by
  refine ⟨?_, ?_, ?_, rfl⟩
  · intro CAP s k hk
    show clearLoop s.static_string 0 (CAP + 1) k = 0
    rw [clearLoop_spec, if_pos ⟨Nat.zero_le _, by omega⟩]
  · show clearLoop dirty.static_string 0 SS_MAX_LENGTH 255 = 1
    rw [clearLoop_spec, if_neg (by simp [SS_MAX_LENGTH])]
    rfl
  · intro k hk
    show clearLoop dirty.static_string 0 SS_MAX_LENGTH k = 0
    rw [clearLoop_spec, if_pos ⟨Nat.zero_le _, by simpa [SS_MAX_LENGTH] using hk⟩]

/-- Witness for C5: after `sstr_clear` the last cell (index 255 at capacity
255) is zero; after `ss_clear` on the same all-ones struct it is still 1. -/
theorem claim_C5_witness :
    (sstr_clear 255 dirty).static_string 255 = 0 ∧
    (ss_clear dirty).static_string 255 = 1 :=
  ⟨claim_C5.1 255 dirty 255 (by decide), claim_C5.2.1⟩

/-- Claim C6 (defect in `ss_equals_cstr`): `sstr_equals_cstr` returns 0 on a
NULL C string without reading it, for every struct; `ss_equals_cstr` has no
NULL guard and dereferences the NULL pointer (`.error ()`) even when the
bounded string is empty (and likewise when it is not). -/
theorem claim_C6 :
    (∀ s : StaticString, sstr_equals_cstr s none = 0) ∧
    ss_equals_cstr { static_string := fun _ => 0, string_length := 0 } none
      = Except.error () ∧
    ss_equals_cstr { static_string := fun k => if k = 0 then 97 else 0, string_length := 1 }
      none = Except.error () := by
  refine ⟨fun s => rfl, ?_, ?_⟩
  · show ssEqCstrLoop _ none 0 0 = Except.error ()
    rw [ssEqCstrLoop]
    simp [readC]
  · show ssEqCstrLoop _ none 1 0 = Except.error ()
    rw [ssEqCstrLoop]
    simp [readC]

/-- The two-byte string `"ab"` (bytes 97, 98). -/
def abStr : StaticString :=
  { static_string := fun k => if k = 0 then 97 else if k = 1 then 98 else 0,
    string_length := 2 }

/-- Claim C7 (defect in `ss_reverse`): `sstr_reverse` reverses the occupied
bytes in place keeping the length (hence is an involution), but the
StackString `ss_reverse` body is an empty `TODO` stub — on `"ab"` it leaves
the buffer as `"ab"` where the claim requires `"ba"`. -/
theorem claim_C7 :
    (∀ s : StaticString,
      (sstr_reverse s).string_length = s.string_length ∧
      ∀ i, i < s.string_length →
        (sstr_reverse s).static_string i = s.static_string (s.string_length - 1 - i)) ∧
    ss_reverse abStr = abStr ∧
    abStr.static_string 0 = 97 ∧ abStr.static_string 1 = 98 := by
  refine ⟨?_, rfl, rfl, rfl⟩
  intro s
  by_cases h0 : s.string_length = 0
  · rw [sstr_reverse, if_pos h0]
    exact ⟨rfl, fun i hi => by omega⟩
  · rw [sstr_reverse, if_neg h0]
    refine ⟨rfl, ?_⟩
    intro i hi
    show revLoop s.static_string 0 (s.string_length - 1) i = _
    rw [revLoop_spec, if_pos ⟨Nat.zero_le _, by omega⟩]
    congr 1
    omega

/-- Witness for C7: reversing `"ab"` with `sstr_reverse` puts byte `'b'`
first, while `ss_reverse` leaves `'a'` first. -/
theorem claim_C7_witness :
    (sstr_reverse abStr).static_string 0 = 98 ∧
    (ss_reverse abStr).static_string 0 = 97 := by
  constructor
  · have h := (claim_C7.1 abStr).2 0 (by decide)
    simpa using h
  · rw [claim_C7.2.1]
    exact claim_C7.2.2.1

/-- Claim C8: `sstr_substring` with `start ≤ end < length` succeeds (returns 1)
and the destination holds exactly `src[start..end]` (length `end-start+1`,
terminated); with `start > end` or either index `≥ length` it returns 0 and
the destination pair component is exactly the untouched input struct. -/
theorem claim_C8 (src dst : StaticString) (start e : Nat) :
    (start ≤ e ∧ e < src.string_length →
      ((sstr_substring src dst start e).1 = 1 ∧
       (sstr_substring src dst start e).2.string_length = e - start + 1 ∧
       (∀ i, i < e - start + 1 →
         (sstr_substring src dst start e).2.static_string i
           = src.static_string (start + i)) ∧
       (sstr_substring src dst start e).2.static_string (e - start + 1) = 0)) ∧
    (start > e ∨ start ≥ src.string_length ∨ e ≥ src.string_length →
      sstr_substring src dst start e = (0, dst)) := by
  constructor
  · rintro ⟨h1, h2⟩
    have hg : ¬(start ≥ src.string_length ∨ e ≥ src.string_length ∨ start > e) := by omega
    simp only [sstr_substring, if_neg hg]
    refine ⟨trivial, trivial, ?_, store_self _ _ _⟩
    intro i hi
    rw [store_other _ _ _ _ (by omega), substrCopyLoop_spec, if_pos ⟨Nat.zero_le _, hi⟩]
  · intro hg
    rw [sstr_substring, if_pos (by omega)]

/-- The five-byte string `"Hello"` (72, 101, 108, 108, 111). -/
def hello : StaticString :=
  { static_string := fun k => if k = 0 then 72 else if k = 1 then 101 else if k = 2 then 108
      else if k = 3 then 108 else if k = 4 then 111 else 0,
    string_length := 5 }

/-- Witness for C8: `substring("Hello", 1, 3)` yields `"ell"`
(101, 108, 108, length 3) and `substring("Hello", 3, 2)` fails leaving the
destination untouched. -/
theorem claim_C8_witness :
    (sstr_substring hello dirty 1 3).1 = 1 ∧
    (sstr_substring hello dirty 1 3).2.string_length = 3 ∧
    (sstr_substring hello dirty 1 3).2.static_string 0 = 101 ∧
    (sstr_substring hello dirty 1 3).2.static_string 1 = 108 ∧
    (sstr_substring hello dirty 1 3).2.static_string 2 = 108 ∧
    sstr_substring hello dirty 3 2 = (0, dirty) := by
  have h := claim_C8 hello dirty 1 3
  have hp := h.1 (by decide)
  refine ⟨hp.1, by simpa using hp.2.1, ?_, ?_, ?_, (claim_C8 hello dirty 3 2).2 (by decide)⟩
  · have := hp.2.2.1 0 (by decide)
    simpa [hello] using this
  · have := hp.2.2.1 1 (by decide)
    simpa [hello] using this
  · have := hp.2.2.1 2 (by decide)
    simpa [hello] using this

/-- Claim C9: for a terminated string with `string_length < CAP` and any
`index ≤ string_length`, `sstr_insert_char_at(index, c)` followed by
`sstr_remove_at(index)` restores the original string: same length and the
same bytes at every position `0..string_length`, terminator included. -/
theorem claim_C9 (CAP : Nat) (s : StaticString) (index c : Nat)
    (hcap : s.string_length < CAP) (hidx : index ≤ s.string_length)
    (hterm : s.static_string s.string_length = 0) :
    (sstr_remove_at (sstr_insert_char_at CAP s index c).2 index).2.string_length
      = s.string_length ∧
    ∀ k, k ≤ s.string_length →
      (sstr_remove_at (sstr_insert_char_at CAP s index c).2 index).2.static_string k
        = s.static_string k := by
  have hg1 : ¬(index > s.string_length ∨ s.string_length ≥ CAP) := by omega
  have hlen1 : (sstr_insert_char_at CAP s index c).2.string_length = s.string_length + 1 := by
    simp only [sstr_insert_char_at, if_neg hg1]
  have hbuf1 : ∀ k, (sstr_insert_char_at CAP s index c).2.static_string k =
      if k = s.string_length + 1 then 0
      else if k = index then c
      else if index < k ∧ k ≤ s.string_length then s.static_string (k - 1)
      else s.static_string k := by
    intro k
    simp only [sstr_insert_char_at, if_neg hg1]
    by_cases hk1 : k = s.string_length + 1
    · rw [if_pos hk1]
      subst hk1
      rw [store_self]
    · rw [store_other _ _ _ _ hk1, if_neg hk1]
      by_cases hk2 : k = index
      · rw [if_pos hk2]
        subst hk2
        rw [store_self]
      · rw [store_other _ _ _ _ hk2, if_neg hk2]
        exact insertShiftLoop_spec index s.static_string s.string_length k
  have hg2 : ¬(index ≥ s.string_length + 1) := by omega
  constructor
  · simp only [sstr_remove_at, hlen1, if_neg hg2]
    omega
  · intro k hk
    simp only [sstr_remove_at, hlen1, if_neg hg2]
    have hs1 : s.string_length + 1 - 1 = s.string_length := by omega
    rw [hs1]
    by_cases hkl : k = s.string_length
    · rw [hkl, store_self]
      exact hterm.symm
    · rw [store_other _ _ _ _ hkl, removeShiftLoop_spec]
      by_cases h2 : index ≤ k ∧ k < s.string_length
      · rw [if_pos h2, hbuf1 (k + 1), if_neg (by omega), if_neg (by omega), if_pos (by omega)]
        congr 1
      · rw [if_neg h2, hbuf1 k, if_neg (by omega), if_neg (by omega), if_neg (by omega)]

/-- The one-byte string `"a"` (97). -/
def aOne : StaticString :=
  { static_string := fun k => if k = 0 then 97 else 0, string_length := 1 }

/-- Witness for C9: inserting `'b'` at index 0 of `"a"` (capacity 3) and
removing at index 0 gives back length 1 with byte `'a'` at index 0. -/
theorem claim_C9_witness :
    (sstr_remove_at (sstr_insert_char_at 3 aOne 0 98).2 0).2.string_length = 1 ∧
    (sstr_remove_at (sstr_insert_char_at 3 aOne 0 98).2 0).2.static_string 0 = 97 := by
  have h := claim_C9 3 aOne 0 98 (by decide) (by decide) (by decide)
  exact ⟨h.1, (h.2 0 (by decide)).trans (by decide)⟩

/-- Claim C10: on the same logical string (any buffer, length within the
StackString range) the single-pass compaction `sstr_strip_all_whitespace` and
the naive repeated-shifting `ss_strip_all_whitespace` produce the same
resulting length and the same occupied content, namely the subsequence of
non-whitespace bytes `filtSeg buf 0 len` in order. -/
theorem claim_C10 (buf : Nat → Nat) (len : Nat) (hlen : len ≤ SS_MAX_LENGTH) :
    (sstr_strip_all_whitespace { static_string := buf, string_length := len }).string_length
      = (ss_strip_all_whitespace { static_string := buf, string_length := len }).string_length ∧
    (sstr_strip_all_whitespace { static_string := buf, string_length := len }).string_length
      = (filtSeg buf 0 len).length ∧
    (∀ k, k < (filtSeg buf 0 len).length →
      (sstr_strip_all_whitespace { static_string := buf, string_length := len }).static_string k
        = (ss_strip_all_whitespace { static_string := buf, string_length := len }).static_string k) ∧
    (∀ k, k < (filtSeg buf 0 len).length →
      (sstr_strip_all_whitespace { static_string := buf, string_length := len }).static_string k
        = (filtSeg buf 0 len).getD k 0) := by
  obtain ⟨a1, a2, a3⟩ := stripLoop_spec len buf 0 0 (Nat.le_refl _)
  obtain ⟨b1, b2, b3⟩ := ssStripLoop_spec buf len 0 (Nat.zero_le _)
  have ha : ∀ k, k < (filtSeg buf 0 len).length →
      (sstr_strip_all_whitespace { static_string := buf, string_length := len }).static_string k
        = (filtSeg buf 0 len).getD k 0 := by
    intro k hk
    show store (stripLoop len buf 0 0).1 (stripLoop len buf 0 0).2 0 k
        = (filtSeg buf 0 len).getD k 0
    rw [store_other _ _ _ _ (by omega)]
    simpa using a3 k hk
  have hb : ∀ k, k < (filtSeg buf 0 len).length →
      (ss_strip_all_whitespace { static_string := buf, string_length := len }).static_string k
        = (filtSeg buf 0 len).getD k 0 := by
    intro k hk
    show (ssStripLoop buf len 0).1 k = (filtSeg buf 0 len).getD k 0
    simpa using b3 k hk
  have hal : (sstr_strip_all_whitespace
      { static_string := buf, string_length := len }).string_length
        = (filtSeg buf 0 len).length := by
    show (stripLoop len buf 0 0).2 = (filtSeg buf 0 len).length
    simpa using a1
  have hbl : (ss_strip_all_whitespace
      { static_string := buf, string_length := len }).string_length
        = (filtSeg buf 0 len).length := by
    show (ssStripLoop buf len 0).2 = (filtSeg buf 0 len).length
    simpa using b1
  exact ⟨hal.trans hbl.symm, hal, fun k hk => (ha k hk).trans (hb k hk).symm, ha⟩

/-- The three-byte string `"a b"` (97, 32, 98) as a raw buffer. -/
def ws3buf : Nat → Nat :=
  fun k => if k = 0 then 97 else if k = 1 then 32 else if k = 2 then 98 else 0

/-- Witness for C10: stripping `"a b"` with either implementation gives the
same length 2 and the same byte at index 1. -/
theorem claim_C10_witness :
    (sstr_strip_all_whitespace { static_string := ws3buf, string_length := 3 }).string_length
      = (ss_strip_all_whitespace { static_string := ws3buf, string_length := 3 }).string_length ∧
    (sstr_strip_all_whitespace { static_string := ws3buf, string_length := 3 }).string_length
      = 2 ∧
    (sstr_strip_all_whitespace { static_string := ws3buf, string_length := 3 }).static_string 1
      = (ss_strip_all_whitespace { static_string := ws3buf, string_length := 3 }).static_string 1 := by
  have h := claim_C10 ws3buf 3 (by decide)
  have hf : (filtSeg ws3buf 0 3).length = 2 := by
    simp [filtSeg, seg, ws3buf, IS_WHITESPACE]
  exact ⟨h.1, h.2.1.trans hf, h.2.2.1 1 (by rw [hf]; decide)⟩
